import Mathlib

/-!
Verification of the OpenAPI-to-CLI extraction core (src/main.py) against its
specification. The raw parsed YAML/JSON document is modelled by `Json`;
pydantic model construction is modelled by functions returning
`Except String`, where `.error` stands for a raised
ValidationError / KeyError / AttributeError / TypeError.
-/

/-- A parsed YAML/JSON value, as Python hands it to the extraction core:
object keys keep document order (Python dicts preserve insertion order).
Python `None` is `Json.null`; numbers that matter to the claims are integers. -/
inductive Json where
  | null : Json
  | bool : Bool → Json
  | int : Int → Json
  | str : String → Json
  | arr : List Json → Json
  | obj : List (String × Json) → Json
deriving Repr, Inhabited

/-- First value bound to key `k` in an object body (Python dict lookup). -/
def dictGet (d : List (String × Json)) (k : String) : Option Json :=
  (d.find? (fun p => p.1 == k)).map Prod.snd

/-- Python `d.get(k)`: the value, or `None` when the key is absent.  A key
bound to `null` and an absent key are indistinguishable, exactly as in
Python, where both give `None`. -/
def pyGet (d : List (String × Json)) (k : String) : Json :=
  (dictGet d k).getD Json.null

/-- Python `d.get(k, dflt)`: the value when the key is present (even when it
is `null`), else `dflt`. -/
def pyGetD (d : List (String × Json)) (k : String) (dflt : Json) : Json :=
  (dictGet d k).getD dflt

/-- Python `d[k]`: KeyError when absent. -/
def getKey (d : List (String × Json)) (k : String) : Except String Json :=
  match dictGet d k with
  | some v => Except.ok v
  | none => Except.error ("KeyError: " ++ k)

/-- Pydantic decoding of a `str` field: only a string is accepted. -/
def asStr : Json → Except String String
  | Json.str s => Except.ok s
  | _ => Except.error "Input should be a valid string"

/-- Pydantic decoding of a `bool` field. -/
def asBool : Json → Except String Bool
  | Json.bool b => Except.ok b
  | _ => Except.error "Input should be a valid boolean"

/-- Pydantic decoding of an `Optional[str]` field: `None` (that is, an
absent key or a `null` value) decodes to `none`. -/
def asStrOpt : Json → Except String (Option String)
  | Json.null => Except.ok none
  | Json.str s => Except.ok (some s)
  | _ => Except.error "Input should be a valid string"

/-- Elements of a raw list, each required to be a string (`List[str]`). -/
def allStr : List Json → Except String (List String)
  | [] => Except.ok []
  | Json.str s :: rest => do
      let tail ← allStr rest
      Except.ok (s :: tail)
  | _ :: _ => Except.error "Input should be a valid string"

/-- Pydantic decoding of a `List[str]` field. -/
def asListStr : Json → Except String (List String)
  | Json.arr l => allStr l
  | _ => Except.error "Input should be a valid list"

/-- Pydantic decoding of an `Optional[List[Any]]` field (the `enum` field). -/
def asEnumOpt : Json → Except String (Option (List Json))
  | Json.null => Except.ok none
  | Json.arr l => Except.ok (some l)
  | _ => Except.error "Input should be a valid list"

/-- A value used as a Python mapping (`.items()`, `.get`, `in`): anything
else raises (AttributeError / TypeError). -/
def asObj : Json → Except String (List (String × Json))
  | Json.obj d => Except.ok d
  | _ => Except.error "AttributeError"

/-- A value iterated as a Python list of parameter objects. -/
def asArr : Json → Except String (List Json)
  | Json.arr l => Except.ok l
  | _ => Except.error "TypeError"

/-- The normalized schema fragment (class `TypeSchema` of src/main.py).
`default` is pydantic `Any` with default `None`, modelled as `Json` with
`Json.null` for `None`. -/
structure TypeSchema where
  type : String
  format : Option String
  default : Json
  enum : Option (List Json)
deriving Repr

/-- `TypeSchema.validate_schema_type` of src/main.py: the allowed vocabulary
for `type`. -/
def validate_schema_type (v : String) : Except String String :=
  if v ∈ ["string", "number", "integer", "boolean", "array", "object", "null"] then
    Except.ok v
  else
    Except.error "Schema type must be one of the valid types"

/-- The per-type registered format sets (the `type_formats` dict inside
`TypeSchema.validate_format`); `none` when the type has no registered set. -/
def typeFormats (t : String) : Option (List String) :=
  if t = "string" then
    some ["date", "date-time", "password", "byte", "binary", "email", "uuid", "uri", "hostname"]
  else if t = "integer" then
    some ["int32", "int64"]
  else if t = "number" then
    some ["float", "double"]
  else
    none

/-- `TypeSchema.validate_format` of src/main.py: a present format must lie in
the format set registered for the already-validated `type`; a type with no
registered set passes any format through. `schemaType` is
`values.data.get('type')`. -/
def validate_format (schemaType : Option String) (v : Option String) :
    Except String (Option String) :=
  match v with
  | none => Except.ok none
  | some f =>
    match schemaType with
    | none => Except.ok (some f)
    | some t =>
      match typeFormats t with
      | none => Except.ok (some f)
      | some fmts =>
          if f ∈ fmts then Except.ok (some f)
          else Except.error ("Invalid format " ++ f ++ " for type " ++ t)

/-- Construction `TypeSchema(type=..., format=..., default=..., enum=...)`
with raw keyword values, as at the parameter site (src/main.py lines
256-261): pydantic decodes each field and runs the two field validators. -/
def typeSchemaOfFields (ty fmt dflt en : Json) : Except String TypeSchema := do
  let t0 ← asStr ty
  let t ← validate_schema_type t0
  let f0 ← asStrOpt fmt
  let f ← validate_format (some t) f0
  let e ← asEnumOpt en
  Except.ok { type := t, format := f, default := dflt, enum := e }

/-- Construction `TypeSchema(**schema_data)` from a raw mapping, as at the
response and request-body sites (src/main.py lines 286 and 301): a missing
`type` key is a missing required field; extra keys are tolerated
(`extra = "allow"`). -/
def typeSchemaOfDict (d : List (String × Json)) : Except String TypeSchema :=
  match dictGet d "type" with
  | none => Except.error "Field required: type"
  | some ty => typeSchemaOfFields ty (pyGet d "format") (pyGet d "default") (pyGet d "enum")

/-- The normalized endpoint parameter (class `Parameter` of src/main.py,
frozen pydantic model). The field `in_` carries pydantic alias `in`;
`default` and `example` are `Any`, modelled as `Json`.  The source field
`example` is named `example_` here because `example` is a Lean keyword. -/
structure Parameter where
  name : String
  description : String
  required : Bool
  type : String
  default : Json
  in_ : String
  schema_ : Option TypeSchema
  example_ : Json
deriving Repr

/-- `Parameter.validate_type` of src/main.py: the narrower parameter type
vocabulary (no `null`). -/
def validate_type (v : String) : Except String String :=
  if v ∈ ["string", "number", "integer", "boolean", "array", "object"] then
    Except.ok v
  else
    Except.error "Type must be one of the valid types"

/-- `Parameter.validate_parameter_in` of src/main.py: the four recognized
parameter locations. -/
def validate_parameter_in (v : String) : Except String String :=
  if v ∈ ["path", "query", "header", "cookie"] then
    Except.ok v
  else
    Except.error "Parameter location must be one of the valid locations"

/-- The per-parameter body of the loop at src/main.py lines 254-272: build
the `TypeSchema` from `param.get('schema', {})`, then construct the
`Parameter` with `name=param['name']`, `description=param.get('description', '')`,
`required=param.get('required', False)`, `type=type_schema.type`,
`default=type_schema.default`, `in_=param['in']`, `schema_=type_schema`,
`example=param.get('example')`, running the pydantic field validators.
The raw parameter's own `default` key is never read. -/
def normalizeParam (param : Json) : Except String Parameter := do
  let p ← asObj param
  let schemaJ := pyGetD p "schema" (Json.obj [])
  let schema ← asObj schemaJ
  let type_schema ← typeSchemaOfFields (pyGetD schema "type" (Json.str "string"))
      (pyGet schema "format") (pyGet schema "default") (pyGet schema "enum")
  let nameJ ← getKey p "name"
  let name ← asStr nameJ
  let description ← asStr (pyGetD p "description" (Json.str ""))
  let required ← asBool (pyGetD p "required" (Json.bool false))
  let ty ← validate_type type_schema.type
  let inJ ← getKey p "in"
  let inRaw ← asStr inJ
  let inVal ← validate_parameter_in inRaw
  Except.ok { name := name, description := description, required := required,
              type := ty, default := type_schema.default, in_ := inVal,
              schema_ := some type_schema, example_ := pyGet p "example" }

/-- The parameter loop of src/main.py lines 251-277: normalize each raw
parameter in order; a parameter whose `in` is `path` goes to `path_params`,
one whose `in` is `query` goes to `query_params`, any other location goes to
neither. The first failure aborts. -/
def extractParams : List Json → Except String (List Parameter × List Parameter)
  | [] => Except.ok ([], [])
  | param :: rest => do
    let p ← normalizeParam param
    let (pp, qp) ← extractParams rest
    if p.in_ = "path" then Except.ok (p :: pp, qp)
    else if p.in_ = "query" then Except.ok (pp, p :: qp)
    else Except.ok (pp, qp)

/-- Normalization of a raw parameter list alone, keeping every parameter
(used to state how `extractParams` partitions its output). -/
def normalizeParams : List Json → Except String (List Parameter)
  | [] => Except.ok []
  | param :: rest => do
    let p ← normalizeParam param
    let ps ← normalizeParams rest
    Except.ok (p :: ps)

/-- An ASCII whitespace character, as stripped by Python `int(str)` before
parsing. -/
def isPySpace (c : Char) : Bool :=
  c = ' ' || c = '\t' || c = '\n' || c = '\r' || c = '\x0b' || c = '\x0c'

/-- Digit run with Python underscore grouping: after the leading digit,
single underscores may separate digits (`int("5_99") = 599`); a trailing,
leading or doubled underscore is a parse failure.  `acc` is the value of the
digits read so far. -/
def digitsCore (acc : Nat) : List Char → Option Nat
  | [] => some acc
  | c :: cs =>
    if c.isDigit then digitsCore (10 * acc + (c.toNat - 48)) cs
    else if c = '_' then
      match cs with
      | d :: cs2 =>
          if d.isDigit then digitsCore (10 * acc + (d.toNat - 48)) cs2
          else none
      | [] => none
    else none

/-- An unsigned decimal literal as Python `int` accepts it: at least one
digit, underscore grouping allowed between digits. -/
def parseDigits : List Char → Option Nat
  | [] => none
  | c :: cs => if c.isDigit then digitsCore (c.toNat - 48) cs else none

/-- Python `int(s)` on a string: optional surrounding whitespace, optional
sign, decimal digits with underscore grouping; `none` models the raised
ValueError. -/
def pyInt (s : String) : Option Int :=
  let l := (s.data.dropWhile isPySpace).reverse.dropWhile isPySpace |>.reverse
  match l with
  | '+' :: rest => (parseDigits rest).map Int.ofNat
  | '-' :: rest => (parseDigits rest).map (fun n => -(n : Int))
  | rest => (parseDigits rest).map Int.ofNat

/-- `OperationResponse.validate_status_code` of src/main.py: `int(v)` must
succeed and land in 100..599, else the ValueError message is raised. -/
def validate_status_code (v : String) : Except String String :=
  match pyInt v with
  | some code =>
      if 100 ≤ code ∧ code ≤ 599 then Except.ok v
      else Except.error "Status code must be a valid HTTP status code (100-599)"
  | none => Except.error "Status code must be a valid HTTP status code (100-599)"

/-- The normalized response (class `OperationResponse` of src/main.py,
frozen pydantic model). -/
structure OperationResponse where
  status_code : String
  description : String
  content_type : Option String
  schema_ : Option TypeSchema
deriving Repr

/-- Construction `OperationResponse(status_code=..., description=...,
content_type=..., schema_=...)` (src/main.py lines 288-293), running the
status-code validator.  The `description` argument is already decoded to a
string by the caller. -/
def mkOperationResponse (status_code : String) (description : String)
    (content_type : Option String) (schema_ : Option TypeSchema) :
    Except String OperationResponse := do
  let sc ← validate_status_code status_code
  Except.ok { status_code := sc, description := description,
              content_type := content_type, schema_ := schema_ }

/-- The per-response body of the loop at src/main.py lines 281-293:
`content_type` is the first key of `response_data.get('content', {})` (or
`None`); when present, that entry's `schema` sub-object (default `{}`) is fed
to `TypeSchema(**schema_data)`. -/
def extractResponse (status_code : String) (response_data : Json) :
    Except String OperationResponse := do
  let rd ← asObj response_data
  let content ← asObj (pyGetD rd "content" (Json.obj []))
  let content_type := content.head?.map Prod.fst
  let schema_ ← match content_type with
    | some ct => do
        let entryJ ← getKey content ct
        let entry ← asObj entryJ
        let sd ← asObj (pyGetD entry "schema" (Json.obj []))
        let ts ← typeSchemaOfDict sd
        Except.ok (some ts)
    | none => Except.ok (none : Option TypeSchema)
  let description ← asStr (pyGetD rd "description" (Json.str ""))
  mkOperationResponse status_code description content_type schema_

/-- The response loop of src/main.py lines 280-293, in document order; the
result models the `responses` dict (insertion order preserved). -/
def extractResponses : List (String × Json) → Except String (List (String × OperationResponse))
  | [] => Except.ok []
  | (sc, rd) :: rest => do
    let r ← extractResponse sc rd
    let rs ← extractResponses rest
    Except.ok ((sc, r) :: rs)

/-- One pass of `re.sub('(.)([A-Z][a-z]+)', r'\1_\2', s)` (src/main.py line
229): scanning left to right, a non-overlapping match is any character but a
newline, an ASCII uppercase letter, then a maximal nonempty run of ASCII
lowercase letters; the replacement inserts an underscore after the first
character.  Scanning resumes after the matched text.  `fuel` is spent one
unit per step; since each step consumes at least one input character,
`sub1F l.length l` never reaches the fuel-exhausted branch on a nonempty
list, so the fuelled function agrees with the scan it models. -/
def sub1F : Nat → List Char → List Char
  | 0, l => l
  | _ + 1, [] => []
  | f + 1, c1 :: rest =>
    match rest with
    | c2 :: c3 :: rest2 =>
      if c1 ≠ '\n' ∧ c2.isUpper ∧ c3.isLower then
        c1 :: '_' :: c2 :: c3 :: (rest2.takeWhile Char.isLower
          ++ sub1F f (rest2.dropWhile Char.isLower))
      else c1 :: sub1F f rest
    | _ => c1 :: sub1F f rest

/-- One pass of `re.sub('([a-z0-9])([A-Z])', r'\1_\2', s)` (src/main.py line
230): a match is an ASCII lowercase letter or digit followed by an ASCII
uppercase letter; an underscore is inserted between them and scanning
resumes after the match. -/
def sub2F : Nat → List Char → List Char
  | 0, l => l
  | _ + 1, [] => []
  | f + 1, c1 :: rest =>
    match rest with
    | c2 :: rest2 =>
      if (c1.isLower ∨ c1.isDigit) ∧ c2.isUpper then
        c1 :: '_' :: c2 :: sub2F f rest2
      else c1 :: sub2F f rest
    | [] => [c1]

/-- `snake_case` of src/main.py lines 226-230: the two regex substitutions,
then `.lower()`.  Python `str.lower()` is modelled by `Char.toLower`, which
lowercases exactly the ASCII range the regex classes `[A-Z]`, `[a-z]`,
`[0-9]` mention. -/
def snake_case (s : String) : String :=
  String.mk ((sub2F (sub1F s.data.length s.data).length (sub1F s.data.length s.data)).map
    Char.toLower)

/-- Python `path.strip('/')`: remove leading and trailing slash runs. -/
def stripSlashes (l : List Char) : List Char :=
  ((l.dropWhile (fun c => c = '/')).reverse.dropWhile (fun c => c = '/')).reverse

/-- Python `.replace('/', '_')` on the stripped path. -/
def replaceSlash (l : List Char) : List Char :=
  l.map (fun c => if c = '/' then '_' else c)

/-- The generated operation name (src/main.py line 310):
`snake_case(path.strip('/').replace('/', '_'))`. -/
def opName (path : String) : String :=
  snake_case (String.mk (replaceSlash (stripSlashes path.data)))

/-- The normalized endpoint (class `Operation` of src/main.py, frozen
pydantic model).  `responses` is the ordered status-code map. -/
structure Operation where
  method : String
  path : String
  tag : List String
  summary : String
  description : String
  snake_case_name : String
  path_parameters : List Parameter
  query_parameters : List Parameter
  body_required : Bool
  responses : List (String × OperationResponse)
  deprecated : Bool
  body_schema : Option TypeSchema
deriving Repr

/-- Python `str.lower()` character by character (the ASCII fragment, which
is all the method vocabulary uses). -/
def pyLower (s : String) : String :=
  String.mk (s.data.map Char.toLower)

/-- `Operation.validate_method` of src/main.py: the method, case-insensitively,
must be one of the seven HTTP verbs; it is stored lowercased. -/
def validate_method (v : String) : Except String String :=
  if pyLower v ∈ ["get", "post", "put", "delete", "patch", "head", "options"] then
    Except.ok (pyLower v)
  else
    Except.error "Method must be one of the valid methods"

/-- Construction of the `Operation` pydantic model (src/main.py lines
304-317): the method validator runs, and the raw-valued fields `tag`,
`summary`, `description` and `deprecated` are decoded to their annotated
types. -/
def mkOperation (method path : String) (tagJ summaryJ descriptionJ : Json)
    (snake_case_name : String) (path_parameters query_parameters : List Parameter)
    (body_required : Bool) (responses : List (String × OperationResponse))
    (deprecatedJ : Json) (body_schema : Option TypeSchema) : Except String Operation := do
  let m ← validate_method method
  let tag ← asListStr tagJ
  let summary ← asStr summaryJ
  let description ← asStr descriptionJ
  let dep ← asBool deprecatedJ
  Except.ok { method := m, path := path, tag := tag, summary := summary,
              description := description, snake_case_name := snake_case_name,
              path_parameters := path_parameters, query_parameters := query_parameters,
              body_required := body_required, responses := responses,
              deprecated := dep, body_schema := body_schema }

/-- The per-method body of the extraction loop (src/main.py lines 249-318):
parameters, responses and request body are extracted, then the `Operation`
is built with `tag=operation.get('tags', ['default'])`,
`snake_case_name=snake_case(path.strip('/').replace('/', '_'))`, and
`deprecated=operation.get('deprecated', False)`. -/
def extractOperation (path method : String) (operation : List (String × Json)) :
    Except String Operation := do
  let params ← asArr (pyGetD operation "parameters" (Json.arr []))
  let (path_params, query_params) ← extractParams params
  let resps ← asObj (pyGetD operation "responses" (Json.obj []))
  let responses ← extractResponses resps
  let request_body ← asObj (pyGetD operation "requestBody" (Json.obj []))
  let body_required ← asBool (pyGetD request_body "required" (Json.bool false))
  let body_content ← asObj (pyGetD request_body "content" (Json.obj []))
  let body_schema ← match dictGet body_content "application/json" with
    | some entryJ => do
        let entry ← asObj entryJ
        let sd ← asObj (pyGetD entry "schema" (Json.obj []))
        let ts ← typeSchemaOfDict sd
        Except.ok (some ts)
    | none => Except.ok (none : Option TypeSchema)
  mkOperation method path (pyGetD operation "tags" (Json.arr [Json.str "default"]))
      (pyGetD operation "summary" (Json.str "")) (pyGetD operation "description" (Json.str ""))
      (opName path) path_params query_params body_required responses
      (pyGetD operation "deprecated" (Json.bool false)) body_schema

/-- The five method keys the extractor visits (src/main.py line 248). -/
def crudVerbs : List String := ["get", "post", "put", "delete", "patch"]

/-- The inner loop over one path item (src/main.py lines 247-318): keys not
in `crudVerbs` are skipped; the visited ones produce operations in document
order. -/
def extractPathItem (path : String) : List (String × Json) → Except String (List Operation)
  | [] => Except.ok []
  | (method, opJ) :: rest =>
    if method ∈ crudVerbs then do
      let opFields ← asObj opJ
      let op ← extractOperation path method opFields
      let ops ← extractPathItem path rest
      Except.ok (op :: ops)
    else extractPathItem path rest

/-- The outer loop over `spec['paths'].items()` (src/main.py lines
246-318). -/
def extractPaths : List (String × Json) → Except String (List Operation)
  | [] => Except.ok []
  | (path, itemJ) :: rest => do
    let item ← asObj itemJ
    let ops1 ← extractPathItem path item
    let ops2 ← extractPaths rest
    Except.ok (ops1 ++ ops2)

/-- `extract_operations` of src/main.py lines 242-320: walk
`spec['paths']` and collect the operations; `.error` models any exception
(ValidationError, KeyError, AttributeError, TypeError) escaping the walk. -/
def extract_operations (spec : Json) : Except String (List Operation) := do
  let s ← asObj spec
  let pathsJ ← getKey s "paths"
  let paths ← asObj pathsJ
  extractPaths paths

/-- A character allowed inside a bare identifier: ASCII letter, digit or
underscore. -/
def identChar (c : Char) : Bool :=
  c.isAlpha || c.isDigit || c = '_'

/-- A valid bare identifier in the sense of the contract of the core
(section 6 of the specification): nonempty, only letters, digits and
underscores, and not starting with a digit. -/
def isBareIdent (s : String) : Bool :=
  match s.data with
  | [] => false
  | c :: cs => (c.isAlpha || c = '_') && cs.all identChar

/-- The (path, method) pairs the specification says extraction visits: for
each path in document order, the path item keys in document order that are
one of the five CRUD verbs (section 4.4 of the specification). -/
def specPathMethodPairs : List (String × Json) → List (String × String)
  | [] => []
  | (p, Json.obj item) :: rest =>
      (item.filterMap (fun mo => if mo.1 ∈ crudVerbs then some (p, mo.1) else none))
        ++ specPathMethodPairs rest
  | _ :: rest => specPathMethodPairs rest

/-- A document whose single path template has a brace placeholder. -/
def docBracePath : Json :=
  Json.obj [("paths", Json.obj [("/users/\x7bid\x7d", Json.obj [("get", Json.obj [])])])]

/-- A document whose single path is a plain two-segment template. -/
def docPlainPath : Json :=
  Json.obj [("paths", Json.obj [("/users/accounts", Json.obj [("get", Json.obj [])])])]

/-- The operation extracted from `docPlainPath`. -/
def opPlainPath : Operation :=
  { method := "get", path := "/users/accounts", tag := ["default"], summary := "",
    description := "", snake_case_name := "users_accounts", path_parameters := [],
    query_parameters := [], body_required := false, responses := [],
    deprecated := false, body_schema := none }

/-- A raw parameter carrying a direct `default` key and a schema whose
`default` differs. -/
def paramKvsDirectDefault : List (String × Json) :=
  [("name", Json.str "x"), ("in", Json.str "query"), ("default", Json.int 5),
   ("schema", Json.obj [("default", Json.int 7)])]

/-- The parameter normalized from `paramKvsDirectDefault`. -/
def paramDirectDefaultResult : Parameter :=
  { name := "x", description := "", required := false, type := "string",
    default := Json.int 7, in_ := "query",
    schema_ := some { type := "string", format := none, default := Json.int 7, enum := none },
    example_ := Json.null }

/-- A document whose single response declares a content type whose entry has
no `schema` key, so `TypeSchema(**{})` runs. -/
def docSchemalessResponse : Json :=
  Json.obj [("paths", Json.obj [("/a", Json.obj [("get", Json.obj [
    ("responses", Json.obj [("200", Json.obj [
      ("description", Json.str "ok"),
      ("content", Json.obj [("application/json", Json.obj [])])])])])])])]

/-- A raw parameter whose `name` is the empty string. -/
def paramEmptyName : Json :=
  Json.obj [("name", Json.str ""), ("in", Json.str "query")]

/-- A document whose single operation carries an explicitly empty `tags`
array. -/
def docEmptyTags : Json :=
  Json.obj [("paths", Json.obj [("/a", Json.obj [("get", Json.obj [
    ("tags", Json.arr [])])])])]

/-- The operation extracted from the path item `{"get": {}}` at path
`/a`. -/
def opBareGet : Operation :=
  { method := "get", path := "/a", tag := ["default"], summary := "",
    description := "", snake_case_name := "a", path_parameters := [],
    query_parameters := [], body_required := false, responses := [],
    deprecated := false, body_schema := none }

/-- A document whose single response uses the out-of-range status key
`999`. -/
def doc999 : Json :=
  Json.obj [("paths", Json.obj [("/a", Json.obj [("get", Json.obj [
    ("responses", Json.obj [("999", Json.obj [
      ("description", Json.str "x")])])])])])]

/-- A document containing `head` and `options` entries alongside a `get`. -/
def docHeadOptions : Json :=
  Json.obj [("paths", Json.obj [("/a", Json.obj [
    ("head", Json.obj []), ("get", Json.obj []), ("options", Json.obj [])])])]

theorem bind_ok {α β : Type} {e : Except String α} {f : α → Except String β} {b : β} :
    (e >>= f) = Except.ok b ↔ ∃ a, e = Except.ok a ∧ f a = Except.ok b := by
  cases e <;> simp [Bind.bind, Except.bind]

theorem isUpper_iff (c : Char) : c.isUpper = true ↔ 65 ≤ c.toNat ∧ c.toNat ≤ 90 := by
  simp only [Char.isUpper, Bool.and_eq_true, decide_eq_true_eq, ge_iff_le]
  exact Iff.rfl

theorem isLower_iff (c : Char) : c.isLower = true ↔ 97 ≤ c.toNat ∧ c.toNat ≤ 122 := by
  simp only [Char.isLower, Bool.and_eq_true, decide_eq_true_eq, ge_iff_le]
  exact Iff.rfl

theorem isDigit_iff (c : Char) : c.isDigit = true ↔ 48 ≤ c.toNat ∧ c.toNat ≤ 57 := by
  simp only [Char.isDigit, Bool.and_eq_true, decide_eq_true_eq, ge_iff_le]
  exact Iff.rfl

theorem charOfNat_toNat {n : Nat} (h : n < 55296) : (Char.ofNat n).toNat = n := by
  rw [Char.ofNat, dif_pos (Or.inl h)]
  rfl

theorem toLower_eq_self (c : Char) (h : c.isUpper = false) : Char.toLower c = c := by
  rw [Char.toLower, if_neg]
  intro hc
  have h2 : c.isUpper = true := (isUpper_iff c).mpr ⟨hc.1, hc.2⟩
  rw [h] at h2
  exact Bool.false_ne_true h2

theorem toLower_toNat_of_upper {c : Char} (h : c.isUpper = true) :
    (Char.toLower c).toNat = c.toNat + 32 := by
  have h65 := (isUpper_iff c).mp h
  rw [Char.toLower, if_pos ⟨h65.1, h65.2⟩]
  exact charOfNat_toNat (by omega)

theorem toLower_not_upper (c : Char) : (Char.toLower c).isUpper = false := by
  by_cases h : c.isUpper = true
  · have h65 := (isUpper_iff c).mp h
    rw [Bool.eq_false_iff]
    intro hu
    have := (isUpper_iff _).mp hu
    rw [toLower_toNat_of_upper h] at this
    omega
  · have hf : c.isUpper = false := by simpa using h
    rw [toLower_eq_self c hf]
    exact hf

theorem sub1F_no_upper (f : Nat) :
    ∀ l : List Char, (∀ c ∈ l, c.isUpper = false) → sub1F f l = l := by
  induction f with
  | zero => intro l h; rfl
  | succ f ih =>
    intro l h
    cases l with
    | nil => rfl
    | cons c1 rest =>
      cases rest with
      | nil =>
        simp only [sub1F]
        rw [ih [] (fun c hc => absurd hc (List.not_mem_nil c))]
      | cons c2 rest1 =>
        have h2 : ∀ c ∈ c2 :: rest1, c.isUpper = false :=
          fun c hc => h c (List.mem_cons_of_mem c1 hc)
        cases rest1 with
        | nil =>
          simp only [sub1F]
          rw [ih [c2] h2]
        | cons c3 rest2 =>
          have hc2 : c2.isUpper = false := h c2 (by simp)
          simp only [sub1F, hc2, Bool.false_eq_true, false_and, and_false, if_false]
          rw [ih (c2 :: c3 :: rest2) h2]

theorem sub2F_no_upper (f : Nat) :
    ∀ l : List Char, (∀ c ∈ l, c.isUpper = false) → sub2F f l = l := by
  induction f with
  | zero => intro l h; rfl
  | succ f ih =>
    intro l h
    cases l with
    | nil => rfl
    | cons c1 rest =>
      cases rest with
      | nil => rfl
      | cons c2 rest1 =>
        have hc2 : c2.isUpper = false := h c2 (by simp)
        simp only [sub2F, hc2, Bool.false_eq_true, and_false, if_false]
        rw [ih (c2 :: rest1) (fun c hc => h c (List.mem_cons_of_mem c1 hc))]

theorem map_toLower_id {l : List Char} (h : ∀ c ∈ l, c.isUpper = false) :
    l.map Char.toLower = l := by
  induction l with
  | nil => rfl
  | cons c rest ih =>
    simp only [List.map_cons]
    rw [toLower_eq_self c (h c (by simp)),
        ih (fun d hd => h d (List.mem_cons_of_mem c hd))]

/-- C10 (confirmed): the output of the name-folding transform has no ASCII
uppercase letter, and the transform is idempotent: applying it to its own
output returns that output unchanged. -/
theorem snake_case_idempotent :
    ∀ s : String, (snake_case s).data.all (fun c => !c.isUpper) = true ∧
      snake_case (snake_case s) = snake_case s := by
  intro s
  have hdata : (snake_case s).data = (sub2F (sub1F s.data.length s.data).length
      (sub1F s.data.length s.data)).map Char.toLower := rfl
  have hno : ∀ c ∈ (snake_case s).data, c.isUpper = false := by
    rw [hdata]
    intro c hc
    obtain ⟨a, ha, rfl⟩ := List.mem_map.mp hc
    exact toLower_not_upper a
  constructor
  · rw [List.all_eq_true]
    intro c hc
    simp [hno c hc]
  · calc snake_case (snake_case s)
        = String.mk ((sub2F (sub1F (snake_case s).data.length (snake_case s).data).length
            (sub1F (snake_case s).data.length (snake_case s).data)).map Char.toLower) := rfl
      _ = snake_case s := by
          rw [sub1F_no_upper _ _ hno, sub2F_no_upper _ _ hno, map_toLower_id hno]

theorem identChar_toLower {c : Char} (h : identChar c = true) :
    identChar (Char.toLower c) = true := by
  by_cases hu : c.isUpper = true
  · have h65 := (isUpper_iff c).mp hu
    have hlow : (Char.toLower c).isLower = true := by
      rw [isLower_iff, toLower_toNat_of_upper hu]
      omega
    simp [identChar, Char.isAlpha, hlow]
  · have hf : c.isUpper = false := by simpa using hu
    rw [toLower_eq_self c hf]
    exact h

theorem alphaUnderscore_toLower {c : Char} (h : c.isAlpha = true ∨ c = '_') :
    (Char.toLower c).isAlpha = true ∨ Char.toLower c = '_' := by
  rcases h with ha | rfl
  · left
    by_cases hu : c.isUpper = true
    · have hlow : (Char.toLower c).isLower = true := by
        rw [isLower_iff, toLower_toNat_of_upper hu]
        have := (isUpper_iff c).mp hu
        omega
      simp [Char.isAlpha, hlow]
    · have hf : c.isUpper = false := by simpa using hu
      rw [toLower_eq_self c hf]
      exact ha
  · right
    rfl

theorem toLower_not_digit {c : Char} (h : c.isDigit = false) :
    (Char.toLower c).isDigit = false := by
  by_cases hu : c.isUpper = true
  · rw [Bool.eq_false_iff]
    intro hd
    have := (isDigit_iff _).mp hd
    rw [toLower_toNat_of_upper hu] at this
    have h65 := (isUpper_iff c).mp hu
    omega
  · have hf : c.isUpper = false := by simpa using hu
    rw [toLower_eq_self c hf]
    exact h

theorem sub1F_mem (f : Nat) :
    ∀ {l : List Char} {c : Char}, c ∈ sub1F f l → c ∈ l ∨ c = '_' := by
  induction f with
  | zero => intro l c hc; exact Or.inl hc
  | succ f ih =>
    intro l c hc
    cases l with
    | nil => exact Or.inl hc
    | cons c1 rest =>
      cases rest with
      | nil =>
        simp only [sub1F] at hc
        rcases List.mem_cons.mp hc with rfl | hc2
        · exact Or.inl (by simp)
        · rcases ih hc2 with h3 | h3
          · exact Or.inl (List.mem_cons_of_mem c1 h3)
          · exact Or.inr h3
      | cons c2 rest1 =>
        cases rest1 with
        | nil =>
          simp only [sub1F] at hc
          rcases List.mem_cons.mp hc with rfl | hc2
          · exact Or.inl (by simp)
          · rcases ih hc2 with h3 | h3
            · exact Or.inl (List.mem_cons_of_mem c1 h3)
            · exact Or.inr h3
        | cons c3 rest2 =>
          simp only [sub1F] at hc
          split at hc
          · simp only [List.mem_cons, List.mem_append] at hc
            rcases hc with rfl | rfl | rfl | rfl | htake | hsub
            · exact Or.inl (by simp)
            · exact Or.inr rfl
            · exact Or.inl (by simp)
            · exact Or.inl (by simp)
            · refine Or.inl ?_
              have hmem : c ∈ rest2 := (List.takeWhile_prefix _).sublist.mem htake
              simp [List.mem_cons, hmem]
            · rcases ih hsub with h3 | h3
              · refine Or.inl ?_
                have hmem : c ∈ rest2 := (List.dropWhile_suffix _).sublist.mem h3
                simp [List.mem_cons, hmem]
              · exact Or.inr h3
          · rcases List.mem_cons.mp hc with rfl | hc2
            · exact Or.inl (by simp)
            · rcases ih hc2 with h3 | h3
              · exact Or.inl (List.mem_cons_of_mem c1 h3)
              · exact Or.inr h3

theorem sub2F_mem (f : Nat) :
    ∀ {l : List Char} {c : Char}, c ∈ sub2F f l → c ∈ l ∨ c = '_' := by
  induction f with
  | zero => intro l c hc; exact Or.inl hc
  | succ f ih =>
    intro l c hc
    cases l with
    | nil => exact Or.inl hc
    | cons c1 rest =>
      cases rest with
      | nil => exact Or.inl hc
      | cons c2 rest1 =>
        simp only [sub2F] at hc
        split at hc
        · simp only [List.mem_cons] at hc
          rcases hc with rfl | rfl | rfl | hc2
          · exact Or.inl (by simp)
          · exact Or.inr rfl
          · exact Or.inl (by simp)
          · rcases ih hc2 with h3 | h3
            · refine Or.inl ?_
              simp [List.mem_cons, List.mem_cons_of_mem c2 h3]
            · exact Or.inr h3
        · rcases List.mem_cons.mp hc with rfl | hc2
          · exact Or.inl (by simp)
          · rcases ih hc2 with h3 | h3
            · exact Or.inl (List.mem_cons_of_mem c1 h3)
            · exact Or.inr h3

theorem sub1F_head (f : Nat) (l : List Char) : (sub1F f l).head? = l.head? := by
  cases f with
  | zero => rfl
  | succ f =>
    cases l with
    | nil => rfl
    | cons c1 rest =>
      cases rest with
      | nil => rfl
      | cons c2 rest1 =>
        cases rest1 with
        | nil => rfl
        | cons c3 rest2 =>
          simp only [sub1F]
          split <;> rfl

theorem sub2F_head (f : Nat) (l : List Char) : (sub2F f l).head? = l.head? := by
  cases f with
  | zero => rfl
  | succ f =>
    cases l with
    | nil => rfl
    | cons c1 rest =>
      cases rest with
      | nil => rfl
      | cons c2 rest1 =>
        simp only [sub2F]
        split <;> rfl

theorem stripSlashes_mem {l : List Char} {c : Char} (h : c ∈ stripSlashes l) : c ∈ l := by
  unfold stripSlashes at h
  have h1 := List.mem_reverse.mp h
  have h2 := (List.dropWhile_suffix _).sublist.mem h1
  have h3 := List.mem_reverse.mp h2
  exact (List.dropWhile_suffix _).sublist.mem h3

theorem dropWhile_head_false {p : Char → Bool} {l : List Char} {c : Char}
    (h : (l.dropWhile p).head? = some c) : p c = false := by
  induction l with
  | nil => cases h
  | cons a rest ih =>
    rw [List.dropWhile_cons] at h
    by_cases hp : p a = true
    · rw [if_pos hp] at h
      exact ih h
    · have hf : p a = false := by simpa using hp
      rw [if_neg (by simp [hf])] at h
      have : a = c := by simpa using h
      subst this
      exact hf

theorem reverse_drop_take_decomp (p : Char → Bool) (m : List Char) :
    m = (List.dropWhile p m.reverse).reverse ++ (List.takeWhile p m.reverse).reverse := by
  conv_lhs => rw [← List.reverse_reverse m, ← List.takeWhile_append_dropWhile p m.reverse]
  rw [List.reverse_append]

theorem stripSlashes_head {l : List Char} {c : Char}
    (h : (stripSlashes l).head? = some c) : c ≠ '/' := by
  have hdec := reverse_drop_take_decomp (fun c => c = '/')
    (List.dropWhile (fun c => c = '/') l)
  have h2 : (((List.dropWhile (fun c => c = '/') l).reverse.dropWhile
      (fun c => c = '/')).reverse).head? = some c := h
  have hh : (List.dropWhile (fun c => c = '/') l).head? = some c := by
    rw [hdec, List.head?_append, h2]
    rfl
  have h3 := dropWhile_head_false hh
  simpa using h3

theorem replaceSlash_mem {l : List Char} {c : Char} (h : c ∈ replaceSlash l) :
    ∃ d ∈ l, c = if d = '/' then '_' else d := by
  obtain ⟨d, hd, rfl⟩ := List.mem_map.mp h
  exact ⟨d, hd, rfl⟩

/-- For a path whose characters are slashes and identifier characters, whose
stripped form is nonempty and does not start with a digit, the generated
operation name is a valid bare identifier. -/
theorem isBareIdent_opName {path : String}
    (hall : path.data.all (fun c => c == '/' || identChar c) = true)
    (hne : stripSlashes path.data ≠ [])
    (hhead : (stripSlashes path.data).head?.all (fun c => !c.isDigit) = true) :
    isBareIdent (opName path) = true := by
  rw [List.all_eq_true] at hall
  cases hsl : stripSlashes path.data with
  | nil => exact absurd hsl hne
  | cons d0 tl =>
  have hd0slash : d0 ≠ '/' := stripSlashes_head (by rw [hsl]; rfl)
  have hd0mem : d0 ∈ path.data := stripSlashes_mem (by rw [hsl]; simp)
  have hd0ident : identChar d0 = true := by
    have := hall d0 hd0mem
    simp only [Bool.or_eq_true] at this
    rcases this with h1 | h1
    · exact absurd (by simpa using h1) hd0slash
    · exact h1
  have hd0digit : d0.isDigit = false := by
    rw [hsl] at hhead
    simpa using hhead
  have hd0alpha : d0.isAlpha = true ∨ d0 = '_' := by
    simp only [identChar, Bool.or_eq_true] at hd0ident
    rcases hd0ident with (ha | hd) | hu
    · exact Or.inl ha
    · rw [hd] at hd0digit
      cases hd0digit
    · exact Or.inr (by simpa using hu)
  -- the underscored path and its properties
  have htmem : ∀ c ∈ replaceSlash (stripSlashes path.data), identChar c = true := by
    intro c hc
    obtain ⟨d, hd, rfl⟩ := replaceSlash_mem hc
    by_cases hds : d = '/'
    · rw [if_pos hds]
      rfl
    · rw [if_neg hds]
      have hor := hall d (stripSlashes_mem hd)
      simp only [Bool.or_eq_true] at hor
      rcases hor with h1 | h1
      · exact absurd (by simpa using h1) hds
      · exact h1
  have hthead : (replaceSlash (stripSlashes path.data)).head? = some d0 := by
    rw [hsl]
    simp only [replaceSlash, List.map_cons, List.head?_cons, if_neg hd0slash]
  -- unfold opName / snake_case on the underscored path
  set t := replaceSlash (stripSlashes path.data) with ht
  have hout : (opName path).data =
      (sub2F (sub1F t.length t).length (sub1F t.length t)).map Char.toLower := rfl
  have houthead : (opName path).data.head? = some (Char.toLower d0) := by
    rw [hout, List.head?_map, sub2F_head, sub1F_head, hthead]
    rfl
  have houtmem : ∀ c ∈ (opName path).data, identChar c = true := by
    rw [hout]
    intro c hc
    obtain ⟨a, ha, rfl⟩ := List.mem_map.mp hc
    have haident : identChar a = true := by
      rcases sub2F_mem _ ha with h2 | h2
      · rcases sub1F_mem _ h2 with h3 | h3
        · exact htmem a h3
        · rw [h3]; rfl
      · rw [h2]; rfl
    exact identChar_toLower haident
  cases hdo : (opName path).data with
  | nil => rw [hdo] at houthead; cases houthead
  | cons c0 cs =>
    have hc0 : c0 = Char.toLower d0 := by
      rw [hdo] at houthead
      simpa using houthead
    unfold isBareIdent
    rw [hdo]
    have hfirst : (c0.isAlpha || c0 = '_') = true := by
      rw [hc0]
      rcases alphaUnderscore_toLower hd0alpha with h1 | h1
      · simp [h1]
      · simp [h1]
    have hrest : cs.all identChar = true := by
      rw [List.all_eq_true]
      intro c hc
      exact houtmem c (by rw [hdo]; exact List.mem_cons_of_mem c0 hc)
    simp [hfirst, hrest]

/-- C1 counterexample: the path template `/users/(id)` with braces in place
of the parentheses is extracted into an operation whose generated name keeps
the braces, so the name is not a bare identifier. -/
theorem brace_path_name_not_identifier :
    (extract_operations docBracePath).map
      (List.map (fun op => (op.snake_case_name, isBareIdent op.snake_case_name)))
      = Except.ok [("users_\x7bid\x7d", false)] := rfl

/-- C2 counterexample: a raw parameter with a direct `default` of 5 and a
schema `default` of 7 normalizes with default 7 — the direct value does not
take precedence; it is ignored. -/
theorem direct_default_ignored_cex :
    normalizeParam (Json.obj paramKvsDirectDefault) = Except.ok paramDirectDefaultResult ∧
    paramDirectDefaultResult.default = Json.int 7 ∧ Json.int 7 ≠ Json.int 5 :=
  ⟨rfl, rfl, by simp⟩

/-- C3 counterexample: a response whose content entry has an empty schema
object makes extraction fail (missing required `type`), instead of
resolving to a TypeSchema of type string. -/
theorem schemaless_response_errors_cex :
    (extract_operations docSchemalessResponse).isOk = false := rfl

/-- C4 counterexample: a raw parameter whose name is the empty string is
normalized into a Parameter with an empty name. -/
theorem empty_name_accepted_cex :
    (normalizeParam paramEmptyName).map Parameter.name = Except.ok "" := rfl

/-- C5 counterexample: an explicitly empty raw `tags` array is kept as the
empty tag list, not replaced by the default tag. -/
theorem empty_tags_kept_cex :
    (extract_operations docEmptyTags).map (List.map Operation.tag) = Except.ok [[]] ∧
    ([] : List String) ≠ ["default"] :=
  ⟨rfl, by simp⟩

/-- C6 (confirmed): validation of a present format fails exactly when the
resolved type has a registered format set and the format is not a member;
the registered types are exactly string, integer and number, so every other
type passes any format through; in particular type string with format int32
is rejected. -/
theorem validate_format_characterization :
    (∀ t f, (validate_format (some t) (some f)).isOk = false ↔
        ∃ fmts, typeFormats t = some fmts ∧ f ∉ fmts) ∧
    (∀ t, (typeFormats t).isSome = true ↔ (t = "string" ∨ t = "integer" ∨ t = "number")) ∧
    (validate_format (some "string") (some "int32")).isOk = false := by
  refine ⟨?_, ?_, rfl⟩
  · intro t f
    cases h : typeFormats t with
    | none => simp [validate_format, h, Except.isOk, Except.toBool]
    | some fmts =>
      by_cases hf : f ∈ fmts
      · simp [validate_format, h, hf, Except.isOk, Except.toBool]
      · simp [validate_format, h, hf, Except.isOk, Except.toBool]
  · intro t
    unfold typeFormats
    split_ifs with h1 h2 h3 <;> simp_all

theorem asObj_ok {j : Json} {d : List (String × Json)} :
    asObj j = Except.ok d ↔ j = Json.obj d := by
  cases j <;> simp [asObj]

theorem asArr_ok {j : Json} {l : List Json} :
    asArr j = Except.ok l ↔ j = Json.arr l := by
  cases j <;> simp [asArr]

theorem asStr_ok {j : Json} {s : String} :
    asStr j = Except.ok s ↔ j = Json.str s := by
  cases j <;> simp [asStr]

theorem getKey_ok {d : List (String × Json)} {k : String} {v : Json} :
    getKey d k = Except.ok v ↔ dictGet d k = some v := by
  unfold getKey
  cases h : dictGet d k <;> simp

theorem validate_schema_type_ok {v w : String}
    (h : validate_schema_type v = Except.ok w) : w = v := by
  unfold validate_schema_type at h
  split at h
  · exact (Except.ok.inj h).symm
  · cases h

theorem validate_type_ok {v w : String}
    (h : validate_type v = Except.ok w) : w = v := by
  unfold validate_type at h
  split at h
  · exact (Except.ok.inj h).symm
  · cases h

theorem validate_method_ok {v w : String}
    (h : validate_method v = Except.ok w) : w = pyLower v := by
  unfold validate_method at h
  split at h
  · exact (Except.ok.inj h).symm
  · cases h

theorem typeSchemaOfFields_ok {ty fmt dflt en : Json} {ts : TypeSchema}
    (h : typeSchemaOfFields ty fmt dflt en = Except.ok ts) :
    asStr ty = Except.ok ts.type ∧ ts.default = dflt := by
  unfold typeSchemaOfFields at h
  simp only [bind_ok] at h
  obtain ⟨t0, ht0, t, ht, f0, hf0, f, hf, e, he, hfin⟩ := h
  have hts : ts = { type := t, format := f, default := dflt, enum := e } :=
    (Except.ok.inj hfin).symm
  subst hts
  constructor
  · show asStr ty = Except.ok t
    rw [validate_schema_type_ok ht]
    exact ht0
  · rfl

/-- Everything the later theorems need about a successful parameter
normalization, read off the bind chain of `normalizeParam`. -/
theorem normalizeParam_ok {kvs : List (String × Json)} {p : Parameter}
    (h : normalizeParam (Json.obj kvs) = Except.ok p) :
    ∃ s ts, pyGetD kvs "schema" (Json.obj []) = Json.obj s ∧
      typeSchemaOfFields (pyGetD s "type" (Json.str "string")) (pyGet s "format")
        (pyGet s "default") (pyGet s "enum") = Except.ok ts ∧
      dictGet kvs "name" = some (Json.str p.name) ∧
      p.default = ts.default ∧ p.type = ts.type ∧ p.schema_ = some ts := by
  unfold normalizeParam at h
  simp only [bind_ok] at h
  obtain ⟨pkvs, hp, schema, hs, ts, hts, nameJ, hn, name, hname, desc, hdesc,
    req, hreq, ty, hty, inJ, hin, inRaw, hinr, inVal, hinv, hfin⟩ := h
  have hpk : kvs = pkvs := by
    have h2 := asObj_ok.mp hp
    simpa using h2
  subst hpk
  have hrec : p = { name := name, description := desc, required := req, type := ty,
                    default := ts.default, in_ := inVal, schema_ := some ts,
                    example_ := pyGet kvs "example" } :=
    (Except.ok.inj hfin).symm
  refine ⟨schema, ts, asObj_ok.mp hs, hts, ?_, ?_, ?_, ?_⟩
  · have hd : dictGet kvs "name" = some nameJ := getKey_ok.mp hn
    have hnj : nameJ = Json.str name := asStr_ok.mp hname
    rw [hrec]
    simpa [hnj] using hd
  · rw [hrec]
  · rw [hrec]
    exact validate_type_ok hty
  · rw [hrec]

/-- C8 (confirmed): `extractParams` keeps, of the normalized parameters (in
order), exactly those with location `path` in the first sequence and exactly
those with location `query` in the second; every other location lands in
neither. -/
theorem extractParams_partition :
    ∀ ps : List Json,
      extractParams ps = (normalizeParams ps).map (fun l =>
        (l.filter (fun p => p.in_ == "path"), l.filter (fun p => p.in_ == "query"))) := by
  intro ps
  induction ps with
  | nil => rfl
  | cons param rest ih =>
    simp only [extractParams, normalizeParams, Bind.bind, Except.bind]
    cases hp : normalizeParam param with
    | error e => simp [Except.map]
    | ok p =>
      rw [ih]
      cases hr : normalizeParams rest with
      | error e => simp [Except.map]
      | ok l =>
        simp only [Except.map, List.filter_cons]
        by_cases h1 : p.in_ = "path"
        · have h2 : ¬ p.in_ = "query" := by rw [h1]; decide
          simp [h1, h2]
        · by_cases h2 : p.in_ = "query"
          · simp [h1, h2]
          · simp [h1, h2]

/-- What a successful `mkOperation` determines about the built operation:
path, stored method, generated name, and the decoded tags. -/
theorem mkOperation_ok {method path : String} {tJ sJ dJ : Json} {name : String}
    {pp qp : List Parameter} {br : Bool} {resp : List (String × OperationResponse)}
    {depJ : Json} {bs : Option TypeSchema} {op : Operation}
    (h : mkOperation method path tJ sJ dJ name pp qp br resp depJ bs = Except.ok op) :
    op.path = path ∧ op.method = pyLower method ∧ op.snake_case_name = name ∧
    asListStr tJ = Except.ok op.tag := by
  unfold mkOperation at h
  simp only [bind_ok] at h
  obtain ⟨m, hm, tag, htag, summ, hsumm, desc, hdesc, dep, hdep, hfin⟩ := h
  have hrec : op = { method := m, path := path, tag := tag, summary := summ,
                     description := desc, snake_case_name := name,
                     path_parameters := pp, query_parameters := qp,
                     body_required := br, responses := resp,
                     deprecated := dep, body_schema := bs } :=
    (Except.ok.inj hfin).symm
  refine ⟨by rw [hrec], ?_, by rw [hrec], ?_⟩
  · rw [hrec]
    exact validate_method_ok hm
  · rw [hrec]
    exact htag

/-- What a successful `extractOperation` determines about the built
operation: path, stored method, generated name, and the decoded tags. -/
theorem extractOperation_ok {path method : String} {kvs : List (String × Json)}
    {op : Operation} (h : extractOperation path method kvs = Except.ok op) :
    op.path = path ∧ op.method = pyLower method ∧ op.snake_case_name = opName path ∧
    asListStr (pyGetD kvs "tags" (Json.arr [Json.str "default"])) = Except.ok op.tag := by
  unfold extractOperation at h
  simp only [bind_ok] at h
  obtain ⟨params, hparams, ⟨pp, qp⟩, hx, resps, hresps, responses, hresp,
    rb, hrb, br, hbr, bc, hbc, h⟩ := h
  cases hjs : dictGet bc "application/json" with
  | none =>
    rw [hjs] at h
    simp only [bind_ok] at h
    obtain ⟨y, hy, hmk⟩ := h
    exact mkOperation_ok hmk
  | some entryJ =>
    rw [hjs] at h
    simp only [bind_ok] at h
    obtain ⟨entry, hentry, sd, hsd, ts, hts2, y, hy, hmk⟩ := h
    exact mkOperation_ok hmk

/-- C5 (corrected, amended): the extracted tags are the decode of the raw
`tags` value whenever the key is present — even an explicitly empty array —
and default to the one-element list `default` exactly when the key is
absent. -/
theorem tags_taken_verbatim_or_default :
    ∀ path method kvs op, extractOperation path method kvs = Except.ok op →
      asListStr (pyGetD kvs "tags" (Json.arr [Json.str "default"])) = Except.ok op.tag ∧
      (dictGet kvs "tags" = none → op.tag = ["default"]) ∧
      (∀ l, dictGet kvs "tags" = some (Json.arr l) → allStr l = Except.ok op.tag) := by
  intro path method kvs op h
  have h4 := (extractOperation_ok h).2.2.2
  refine ⟨h4, ?_, ?_⟩
  · intro hnone
    simp only [pyGetD, hnone, Option.getD] at h4
    have h5 : Except.ok ["default"] = Except.ok op.tag := h4
    exact (Except.ok.inj h5).symm
  · intro l hsome
    simp only [pyGetD, hsome, Option.getD, asListStr] at h4
    exact h4

theorem tags_default_witness :
    extractOperation "/a" "get" [] = Except.ok opBareGet ∧ opBareGet.tag = ["default"] :=
  ⟨rfl, (tags_taken_verbatim_or_default "/a" "get" [] opBareGet rfl).2.1 rfl⟩

/-- C2 (corrected, amended): the normalized parameter's default is always
the resolved schema's default; a `default` key on the raw parameter object
itself is never read. -/
theorem default_inherited_from_schema :
    ∀ kvs s p, pyGetD kvs "schema" (Json.obj []) = Json.obj s →
      normalizeParam (Json.obj kvs) = Except.ok p →
      p.default = pyGet s "default" := by
  intro kvs s p hs h
  obtain ⟨s', ts, hs', hts, hname, hdef, htype, hschema⟩ := normalizeParam_ok h
  have hss : s = s' := Json.obj.inj (hs.symm.trans hs')
  subst hss
  rw [hdef, (typeSchemaOfFields_ok hts).2]

theorem default_inherited_witness :
    normalizeParam (Json.obj paramKvsDirectDefault) = Except.ok paramDirectDefaultResult ∧
    paramDirectDefaultResult.default = pyGet [("default", Json.int 7)] "default" :=
  ⟨rfl, default_inherited_from_schema paramKvsDirectDefault [("default", Json.int 7)]
      paramDirectDefaultResult rfl rfl⟩

/-- C3 (corrected, amended): an absent `type` defaults to string only at the
parameter-schema site (and an absent schema gives the all-default TypeSchema
of type string there); at the response and request-body sites, which build
the TypeSchema directly from the raw mapping, an absent `type` is a
validation error. -/
theorem type_defaults_only_at_parameter_site :
    (∀ kvs s p, pyGetD kvs "schema" (Json.obj []) = Json.obj s →
        dictGet s "type" = none →
        normalizeParam (Json.obj kvs) = Except.ok p → p.type = "string") ∧
    (∀ kvs p, dictGet kvs "schema" = none →
        normalizeParam (Json.obj kvs) = Except.ok p →
        p.schema_ = some { type := "string", format := none,
                           default := Json.null, enum := none }) ∧
    (∀ d, dictGet d "type" = none → (typeSchemaOfDict d).isOk = false) := by
  refine ⟨?_, ?_, ?_⟩
  · intro kvs s p hs hnone h
    obtain ⟨s', ts, hs', hts, hname, hdef, htype, hschema⟩ := normalizeParam_ok h
    have hss : s = s' := Json.obj.inj (hs.symm.trans hs')
    subst hss
    simp only [pyGetD, hnone, Option.getD] at hts
    have h1 : Except.ok "string" = Except.ok ts.type := (typeSchemaOfFields_ok hts).1
    rw [htype]
    exact (Except.ok.inj h1).symm
  · intro kvs p hnone h
    obtain ⟨s', ts, hs', hts, hname, hdef, htype, hschema⟩ := normalizeParam_ok h
    have hs0 : Json.obj ([] : List (String × Json)) = Json.obj s' := by
      rw [← hs']
      simp [pyGetD, hnone]
    have hse : s' = ([] : List (String × Json)) := (Json.obj.inj hs0).symm
    subst hse
    have h2 : Except.ok { type := "string", format := none, default := Json.null,
                          enum := none } = Except.ok ts := hts
    rw [hschema, ← Except.ok.inj h2]
  · intro d hnone
    unfold typeSchemaOfDict
    rw [hnone]
    rfl

/-- C4 (corrected, amended): a raw parameter must carry a `name` key (its
absence aborts normalization) and the name is taken verbatim, but
non-emptiness is not enforced: the empty string passes. -/
theorem name_required_not_nonempty :
    (∀ kvs, dictGet kvs "name" = none → (normalizeParam (Json.obj kvs)).isOk = false) ∧
    (∀ kvs p, normalizeParam (Json.obj kvs) = Except.ok p →
        dictGet kvs "name" = some (Json.str p.name)) ∧
    (normalizeParam paramEmptyName).map Parameter.name = Except.ok "" := by
  refine ⟨?_, ?_, rfl⟩
  · intro kvs hnone
    cases hres : normalizeParam (Json.obj kvs) with
    | error e => rfl
    | ok p =>
      obtain ⟨s', ts, hs', hts, hname, hdef, htype, hschema⟩ := normalizeParam_ok hres
      rw [hnone] at hname
      cases hname
  · intro kvs p h
    obtain ⟨s', ts, hs', hts, hname, hdef, htype, hschema⟩ := normalizeParam_ok h
    exact hname

theorem pyLower_of_crud {m : String} (hm : m ∈ crudVerbs) : pyLower m = m := by
  simp only [crudVerbs, List.mem_cons, List.not_mem_nil, or_false] at hm
  rcases hm with rfl | rfl | rfl | rfl | rfl <;> rfl

theorem extractPathItem_pairs {path : String} {item : List (String × Json)}
    {ops : List Operation} (h : extractPathItem path item = Except.ok ops) :
    ops.map (fun op => (op.path, op.method)) =
      item.filterMap (fun mo => if mo.1 ∈ crudVerbs then some (path, mo.1) else none) := by
  induction item generalizing ops with
  | nil =>
    have h0 : ([] : List Operation) = ops := Except.ok.inj h
    subst h0
    rfl
  | cons mo rest ih =>
    obtain ⟨method, opJ⟩ := mo
    by_cases hm : method ∈ crudVerbs
    · simp only [extractPathItem, if_pos hm, bind_ok] at h
      obtain ⟨fields, hfields, op1, hop1, ops2, hops2, hcons⟩ := h
      have hc : op1 :: ops2 = ops := Except.ok.inj hcons
      subst hc
      simp only [List.map_cons, List.filterMap_cons, if_pos hm]
      rw [ih hops2]
      have hshape := extractOperation_ok hop1
      rw [hshape.1, hshape.2.1, pyLower_of_crud hm]
    · simp only [extractPathItem, if_neg hm] at h
      simp only [List.filterMap_cons, if_neg hm]
      exact ih h

theorem extractPaths_pairs {paths : List (String × Json)} {ops : List Operation}
    (h : extractPaths paths = Except.ok ops) :
    ops.map (fun op => (op.path, op.method)) = specPathMethodPairs paths := by
  induction paths generalizing ops with
  | nil =>
    have h0 : ([] : List Operation) = ops := Except.ok.inj h
    subst h0
    rfl
  | cons pj rest ih =>
    obtain ⟨p, itemJ⟩ := pj
    simp only [extractPaths, bind_ok] at h
    obtain ⟨item, hitem, ops1, hops1, ops2, hops2, hcat⟩ := h
    have hj : itemJ = Json.obj item := asObj_ok.mp hitem
    subst hj
    have hc : ops1 ++ ops2 = ops := Except.ok.inj hcat
    subst hc
    simp only [specPathMethodPairs, List.map_append]
    rw [extractPathItem_pairs hops1, ih hops2]

/-- C9 (confirmed): a successful extraction yields exactly one operation per
(path, method) pair whose method key is one of the five CRUD verbs, in
document order; keys outside `crudVerbs` — in particular `head` and
`options` — produce no operation, as the concrete document with all three
shows. -/
theorem operations_per_crud_method :
    (∀ paths ops, extractPaths paths = Except.ok ops →
        ops.map (fun op => (op.path, op.method)) = specPathMethodPairs paths) ∧
    ("head" ∉ crudVerbs ∧ "options" ∉ crudVerbs) ∧
    (extract_operations docHeadOptions).map (List.map (fun op => (op.path, op.method)))
      = Except.ok [("/a", "get")] := by
  refine ⟨fun paths ops h => extractPaths_pairs h, ⟨by decide, by decide⟩, rfl⟩

/-- C7 (confirmed): constructing an OperationResponse succeeds exactly when
the status-code string parses as an integer in 100..599; the concrete
status key `999` aborts extraction with no operation list. -/
theorem status_code_range :
    (∀ v d ct ts, (mkOperationResponse v d ct ts).isOk = true ↔
        ∃ n, pyInt v = some n ∧ 100 ≤ n ∧ n ≤ 599) ∧
    (extract_operations doc999).isOk = false := by
  refine ⟨?_, rfl⟩
  intro v d ct ts
  unfold mkOperationResponse validate_status_code
  cases h : pyInt v with
  | none => simp [h, Except.isOk, Except.toBool, Bind.bind, Except.bind]
  | some n =>
    by_cases hr : 100 ≤ n ∧ n ≤ 599
    · simp [h, hr, Except.isOk, Except.toBool, Bind.bind, Except.bind]
    · simp only [h, if_neg hr, Except.isOk, Except.toBool, Bind.bind, Except.bind]
      simp only [Option.some.injEq]
      constructor
      · intro hfalse
        exact absurd hfalse (by simp)
      · rintro ⟨m, rfl, hm1, hm2⟩
        exact absurd ⟨hm1, hm2⟩ hr

theorem extractPathItem_names {path : String} {item : List (String × Json)}
    {ops : List Operation} (h : extractPathItem path item = Except.ok ops) :
    ∀ op ∈ ops, op.snake_case_name = opName op.path := by
  induction item generalizing ops with
  | nil =>
    have h0 : ([] : List Operation) = ops := Except.ok.inj h
    subst h0
    intro op hop
    cases hop
  | cons mo rest ih =>
    obtain ⟨method, opJ⟩ := mo
    by_cases hm : method ∈ crudVerbs
    · simp only [extractPathItem, if_pos hm, bind_ok] at h
      obtain ⟨fields, hfields, op1, hop1, ops2, hops2, hcons⟩ := h
      have hc : op1 :: ops2 = ops := Except.ok.inj hcons
      subst hc
      intro op hop
      rcases List.mem_cons.mp hop with rfl | hop2
      · have hs := extractOperation_ok hop1
        rw [hs.2.2.1, hs.1]
      · exact ih hops2 op hop2
    · simp only [extractPathItem, if_neg hm] at h
      exact ih h

theorem extractPaths_names {paths : List (String × Json)} {ops : List Operation}
    (h : extractPaths paths = Except.ok ops) :
    ∀ op ∈ ops, op.snake_case_name = opName op.path := by
  induction paths generalizing ops with
  | nil =>
    have h0 : ([] : List Operation) = ops := Except.ok.inj h
    subst h0
    intro op hop
    cases hop
  | cons pj rest ih =>
    obtain ⟨p, itemJ⟩ := pj
    simp only [extractPaths, bind_ok] at h
    obtain ⟨item, hitem, ops1, hops1, ops2, hops2, hcat⟩ := h
    have hc : ops1 ++ ops2 = ops := Except.ok.inj hcat
    subst hc
    intro op hop
    rcases List.mem_append.mp hop with h1 | h1
    · exact extractPathItem_names hops1 op h1
    · exact ih hops2 op h1

theorem extract_operations_names {doc : Json} {ops : List Operation}
    (h : extract_operations doc = Except.ok ops) :
    ∀ op ∈ ops, op.snake_case_name = opName op.path := by
  unfold extract_operations at h
  simp only [bind_ok] at h
  obtain ⟨s, hs, pathsJ, hpj, paths, hp, hps⟩ := h
  exact extractPaths_names hps

/-- C1 (corrected, amended): every extracted operation's generated name is a
valid bare identifier provided the path consists only of slashes, letters,
digits and underscores, strips to a nonempty string, and the stripped path
does not start with a digit; path templates with brace placeholders violate
the character condition and yield names that keep the braces. -/
theorem extracted_names_bare_idents :
    ∀ doc ops op, extract_operations doc = Except.ok ops → op ∈ ops →
      op.path.data.all (fun c => c == '/' || identChar c) = true →
      stripSlashes op.path.data ≠ [] →
      (stripSlashes op.path.data).head?.all (fun c => !c.isDigit) = true →
      isBareIdent op.snake_case_name = true := by
  intro doc ops op hex hmem hall hne hhead
  rw [extract_operations_names hex op hmem]
  exact isBareIdent_opName hall hne hhead

theorem extracted_names_witness :
    extract_operations docPlainPath = Except.ok [opPlainPath] ∧
    isBareIdent opPlainPath.snake_case_name = true :=
  ⟨rfl, extracted_names_bare_idents docPlainPath [opPlainPath] opPlainPath rfl
      (List.mem_singleton.mpr rfl) (by decide) (by decide) (by decide)⟩
